import Mathlib

/-!
# showkey: scancode decoding and mode restoration

A shallow embedding of `src/showkey.c` (kbd).  Two parts of the program are
modelled:

* the keycode decoding loop of `main` (lines 266-293), as functions on a byte
  buffer;
* the life cycle of `main` from the installation of the signal handlers
  (line 209) to process exit, as a step function on an explicit machine state
  (kernel keyboard mode, terminal attributes, descriptor open or closed, the
  file-level statics `oldkbmode` and `old`).

Bytes (`unsigned char`) and `int` values are natural numbers; every value the
decoding computes stays below `2 ^ 14`, so no wrap-around occurs.
-/

namespace Showkey

/-! ## The decoding loop (lines 274-293) -/

/-- One pass of the body of the decoding loop: the keycode `kc`, the flag
`is_released`, and the number of bytes by which the cursor `i` advanced. -/
structure KeyEvent where
  kc : Nat
  is_released : Bool
  bytes_consumed : Nat
deriving DecidableEq

/-- The byte `buf[i]`.  The buffer is a list of bytes; an index past its end
reads as 0 (the loop never reads at or past `n`). -/
def rd (buf : List Nat) (i : Nat) : Nat := buf.getD i 0

/-- The test of line 279:
`i + 2 < n && (buf[i] & 0x7f) == 0 && (buf[i + 1] & 0x80) != 0 && (buf[i + 2] & 0x80) != 0`. -/
def isExt (buf : List Nat) (n i : Nat) : Bool :=
  decide (i + 2 < n) && (rd buf i &&& 0x7f == 0) && (rd buf (i + 1) &&& 0x80 != 0)
    && (rd buf (i + 2) &&& 0x80 != 0)

/-- Lines 277-285: the event computed at cursor `i` (with `i < n`). -/
def decodeAt (buf : List Nat) (n i : Nat) : KeyEvent :=
  let is_released := (rd buf i &&& 0x80) != 0
  if isExt buf n i then
    { kc := ((rd buf (i + 1) &&& 0x7f) <<< 7) ||| (rd buf (i + 2) &&& 0x7f),
      is_released := is_released, bytes_consumed := 3 }
  else
    { kc := rd buf i &&& 0x7f, is_released := is_released, bytes_consumed := 1 }

/-- The indices of `buf` read during one pass of the loop body at cursor `i`,
in program order: line 278, the short-circuit test of line 279, then line 280
or line 283. -/
def readsAt (buf : List Nat) (n i : Nat) : List Nat :=
  [i] ++
  (if i + 2 < n then
    [i] ++ (if rd buf i &&& 0x7f = 0 then
      [i + 1] ++ (if rd buf (i + 1) &&& 0x80 ≠ 0 then [i + 2] else [])
    else [])
  else []) ++
  (if isExt buf n i then [i + 1, i + 2] else [i])

/-- How the decoding loop of one buffer ended. -/
inductive Outcome where
  /-- The loop condition `i < n` became false at this cursor. -/
  | done (cursor : Nat)
  /-- Line 288 held for this event: `clean_up(); return EXIT_SUCCESS;`. -/
  | quit (ev : KeyEvent) (cursor : Nat)
  /-- The iteration budget of the model ran out with `i < n` still true. -/
  | out_of_fuel (cursor : Nat)
deriving DecidableEq

/-- Whether the loop ended through line 289. -/
def Outcome.is_quit : Outcome → Bool
  | .quit _ _ => true
  | _ => false

/-- What one run of the decoding loop did. -/
structure LoopResult where
  /-- The events computed, one per pass of the loop body. -/
  events : List KeyEvent
  /-- The events printed by line 287. -/
  printed : List KeyEvent
  /-- The cursor value at the start of each pass. -/
  cursors : List Nat
  /-- The indices of `buf` read. -/
  reads : List Nat
  outcome : Outcome
deriving DecidableEq

/-- Lines 276-292: `while (i < n) { ... }` started at cursor `i`, with at most
`fuel` passes of the body. -/
def keycodeLoop (show_keycodes : Bool) (quit_keycode : Nat) (buf : List Nat) (n : Nat) :
    Nat → Nat → LoopResult
  | 0, i =>
    { events := [], printed := [], cursors := [], reads := [],
      outcome := if i < n then .out_of_fuel i else .done i }
  | fuel + 1, i =>
    if i < n then
      let ev := decodeAt buf n i
      let i' := i + ev.bytes_consumed
      let pr := if show_keycodes then [ev] else []
      if ev.kc = quit_keycode ∧ ev.is_released = true then
        { events := [ev], printed := pr, cursors := [i], reads := readsAt buf n i,
          outcome := .quit ev i' }
      else
        let r := keycodeLoop show_keycodes quit_keycode buf n fuel i'
        { events := ev :: r.events, printed := pr ++ r.printed, cursors := i :: r.cursors,
          reads := readsAt buf n i ++ r.reads, outcome := r.outcome }
    else
      { events := [], printed := [], cursors := [], reads := [], outcome := .done i }

/-- The event sequence of a buffer: the passes of the loop body of lines
276-285 from cursor `i` up to `n`, without the print and the exit of lines
286-291.  `none` when `fuel` passes do not reach `n`. -/
def decodeFrom (buf : List Nat) (n : Nat) : Nat → Nat → Option (List KeyEvent)
  | 0, i => if i < n then none else some []
  | fuel + 1, i =>
    if i < n then
      let ev := decodeAt buf n i
      (decodeFrom buf n fuel (i + ev.bytes_consumed)).map (fun evs => ev :: evs)
    else some []

/-- The events of a whole buffer of `n = buf.length` bytes, from cursor 0. -/
def decode (buf : List Nat) : Option (List KeyEvent) :=
  decodeFrom buf buf.length buf.length 0

/-- Lines 157-160: the value kept for option `-q` given the integer `v` that
`atoi` returned and the value `show_keycodes` has at that moment. -/
def parse_quit_keycode (show_keycodes : Bool) (v : Int) : Nat :=
  if v < 0 ∨ v > 255 ∨ (v > 83 ∧ show_keycodes = false) then 0 else v.toNat

/-- The options the read loop depends on (lines 111-114). -/
structure Config where
  show_keycodes : Bool
  quit_keycode : Nat
  timeout : Nat
deriving DecidableEq

/-- What lines 266-293 did with one buffer. -/
structure BufferResult where
  /-- The bytes printed in hexadecimal by lines 267-271 (scancode mode). -/
  scancodes : List Nat
  /-- The run of the decoding loop, `none` when the test of line 274 failed
  and the loop was skipped. -/
  loop : Option LoopResult
deriving DecidableEq

/-- Lines 266-293 for one return of `read`: `n` is the value returned
(`ssize_t`, so possibly 0 or -1) and `buf` the buffer contents.  The loops
`i < n` run `n.toNat` times at most, which is the budget given to
`keycodeLoop`. -/
def process_buffer (cfg : Config) (buf : List Nat) (n : Int) : BufferResult :=
  { scancodes := if cfg.show_keycodes then [] else (List.range n.toNat).map (rd buf),
    loop :=
      if cfg.show_keycodes = true ∨ cfg.quit_keycode ≠ 0 then
        some (keycodeLoop cfg.show_keycodes cfg.quit_keycode buf n.toNat n.toNat 0)
      else none }

/-- The event on which processing a buffer reached line 289, if it did. -/
def BufferResult.quit_event (r : BufferResult) : Option KeyEvent :=
  match r.loop with
  | some lr =>
    match lr.outcome with
    | .quit ev _ => some ev
    | _ => none
  | none => none

/-! ## The session: machine state, `clean_up`, handlers and the read loop -/

/-- Keyboard modes of `linux/kd.h` (a system header). -/
def K_RAW : Nat := 0
def K_XLATE : Nat := 1
def K_MEDIUMRAW : Nat := 2
def K_UNICODE : Nat := 3

/-- Local-mode flags of `termios.h` on Linux (a system header). -/
def ISIG : Nat := 0x1
def ICANON : Nat := 0x2
def ECHO : Nat := 0x8

def EXIT_SUCCESS : Nat := 0
def EXIT_FAILURE : Nat := 1

/-- The fields of `struct termios` the program touches. -/
structure Termios where
  c_iflag : Nat
  c_lflag : Nat
  c_cc_VMIN : Nat
  c_cc_VTIME : Nat
deriving DecidableEq

/-- A zero-initialised `struct termios` (a static, or `= { 0 }`). -/
def Termios.zero : Termios := ⟨0, 0, 0, 0⟩

/-- The operating-system state the session owns, the file-level statics of
lines 19-21, and a record of what `clean_up` wrote. -/
structure Machine where
  /-- The kernel keyboard mode of the console. -/
  kbmode : Nat
  /-- The terminal attributes of the console. -/
  attrs : Termios
  /-- Whether the descriptor `fd` is open.  Calls on a closed descriptor fail. -/
  fd_open : Bool
  /-- The static `oldkbmode`. -/
  oldkbmode : Nat
  /-- The static `old`. -/
  old : Termios
  /-- The modes written by the successful `ioctl(fd, KDSKBMODE, oldkbmode)`
  calls of `clean_up`, oldest first. -/
  mode_restores : List Nat
  /-- The attributes written by the successful `tcsetattr(fd, 0, &old)` calls
  of `clean_up`, oldest first. -/
  attr_restores : List Termios
  /-- The number of `kbd_warning` calls. -/
  warnings : Nat
deriving DecidableEq

/-- The result of a call that either returns or ends the process. -/
inductive Call where
  | returned (m : Machine)
  /-- The process was terminated with this exit status. -/
  | fatal (status : Nat) (m : Machine)
deriving DecidableEq

/-- Modelled from the spec: `kbd_error` of libcommon (not under src/), called
with a non-zero status, reports the error and terminates the process with that
status ("the process terminates with a fatal error"). -/
def kbd_error (status : Nat) (m : Machine) : Call := .fatal status m

/-- Modelled from the spec: `kbd_warning` of libcommon (not under src/) reports
the error and returns ("downgraded to a non-fatal warning"). -/
def kbd_warning (m : Machine) : Machine := { m with warnings := m.warnings + 1 }

/-- Lines 63-65: `if (ioctl(fd, KDSKBMODE, oldkbmode)) kbd_error(EXIT_FAILURE, ...)`. -/
def restore_kbmode (m : Machine) : Call :=
  if m.fd_open then
    .returned { m with kbmode := m.oldkbmode, mode_restores := m.mode_restores ++ [m.oldkbmode] }
  else kbd_error EXIT_FAILURE m

/-- Lines 66-67: `if (tcsetattr(fd, 0, &old) == -1) kbd_warning(...)`. -/
def restore_attrs (m : Machine) : Machine :=
  if m.fd_open then
    { m with attrs := m.old, attr_restores := m.attr_restores ++ [m.old] }
  else kbd_warning m

/-- Line 68: `close(fd)`. -/
def close_fd (m : Machine) : Machine := { m with fd_open := false }

/-- Lines 60-69: `clean_up`, run without interruption. -/
def clean_up (m : Machine) : Call :=
  match restore_kbmode m with
  | .fatal st m1 => .fatal st m1
  | .returned m1 => .returned (close_fd (restore_attrs m1))

/-- The statement `clean_up(); clean_up();`: the second call runs only if the
first returned. -/
def clean_up_twice (m : Machine) : Call :=
  match clean_up m with
  | .fatal st m1 => .fatal st m1
  | .returned m1 => clean_up m1

/-- The machine a call left behind. -/
def Call.machine : Call → Machine
  | .returned m => m
  | .fatal _ m => m

/-- Whether a call ended in `kbd_error`. -/
def Call.is_fatal : Call → Bool
  | .returned _ => false
  | .fatal _ _ => true

/-- The control points of the session after line 237.  In the `cu_` points the
process is inside `clean_up`, called by `die`, by `watch_dog` or by line 289;
`status` is what the caller passes to `exit` (or returns from `main`) once
`clean_up` is back. -/
inductive Pc where
  /-- Before line 239, `get_mode()`. -/
  | get_mode
  /-- Before line 240, `tcgetattr(fd, &old)`. -/
  | tcgetattr_old
  /-- Before lines 242-248, `tcgetattr(fd, &new)` and the changes to `new`. -/
  | tcgetattr_new
  /-- Before line 250, `tcsetattr(fd, TCSAFLUSH, &new)`. -/
  | tcsetattr_new
  /-- Before line 252, `ioctl(fd, KDSKBMODE, ...)`. -/
  | set_kbmode
  /-- Lines 263-264: the alarm is armed and the process is blocked in `read`. -/
  | read
  /-- Before line 63. -/
  | cu_kbmode (status : Nat)
  /-- Before line 66. -/
  | cu_tcsetattr (status : Nat)
  /-- Before line 68. -/
  | cu_close (status : Nat)
  /-- After line 68, before `exit(status)`. -/
  | cu_return (status : Nat)
  /-- The process has exited. -/
  | exited (status : Nat)
deriving DecidableEq

/-- The session: the machine, the local `new` of `main`, the control point, and
the number of calls of `clean_up` made so far (one per termination trigger
taken). -/
structure Session where
  m : Machine
  new : Termios
  pc : Pc
  triggers : Nat
deriving DecidableEq

/-- What can happen next to the process. -/
inductive Ev where
  /-- The process executes its next statement (nothing happens when it is
  blocked in `read`). -/
  | run
  /-- The blocked `read` of line 264 returns `n`, leaving `buf` in the buffer. -/
  | input (buf : List Nat) (n : Int)
  /-- A signal registered at lines 215-237 is delivered: `die(x)`. -/
  | signal (x : Nat)
  /-- SIGALRM is delivered: `watch_dog`. -/
  | alarm
deriving DecidableEq

/-- Lines 242-248: the attributes `main` installs, computed from the current
ones (`tcflag_t` is 32 bits wide; 18 is `sizeof(buf)`). -/
def raw_attrs (cur : Termios) : Termios :=
  { c_iflag := 0,
    c_lflag := cur.c_lflag &&& (0xFFFFFFFF ^^^ (ICANON ||| ECHO ||| ISIG)),
    c_cc_VMIN := 18,
    c_cc_VTIME := 1 }

/-- One statement of the interrupted flow, at control point `s.pc`. -/
def exec (cfg : Config) (s : Session) : Session :=
  match s.pc with
  | .get_mode =>
    -- lines 32-33: KDGKBMODE, fatal on failure
    if s.m.fd_open then { s with m := { s.m with oldkbmode := s.m.kbmode }, pc := .tcgetattr_old }
    else { s with pc := .exited EXIT_FAILURE } -- kbd_error
  | .tcgetattr_old =>
    if s.m.fd_open then { s with m := { s.m with old := s.m.attrs }, pc := .tcgetattr_new }
    else { s with m := kbd_warning s.m, pc := .tcgetattr_new }
  | .tcgetattr_new =>
    if s.m.fd_open then { s with new := raw_attrs s.m.attrs, pc := .tcsetattr_new }
    else { s with m := kbd_warning s.m, new := raw_attrs s.new, pc := .tcsetattr_new }
  | .tcsetattr_new =>
    if s.m.fd_open then { s with m := { s.m with attrs := s.new }, pc := .set_kbmode }
    else { s with m := kbd_warning s.m, pc := .set_kbmode }
  | .set_kbmode =>
    if s.m.fd_open then
      { s with m := { s.m with kbmode := if cfg.show_keycodes then K_MEDIUMRAW else K_RAW },
               pc := .read }
    else { s with pc := .exited EXIT_FAILURE } -- kbd_error
  | .read => s
  | .cu_kbmode st =>
    match restore_kbmode s.m with
    | .returned m1 => { s with m := m1, pc := .cu_tcsetattr st }
    | .fatal st1 m1 => { s with m := m1, pc := .exited st1 }
  | .cu_tcsetattr st => { s with m := restore_attrs s.m, pc := .cu_close st }
  | .cu_close st => { s with m := close_fd s.m, pc := .cu_return st }
  | .cu_return st => { s with pc := .exited st }
  | .exited _ => s

/-- One event of the session. -/
def step (cfg : Config) (s : Session) (ev : Ev) : Session :=
  match s.pc with
  | .exited _ => s
  | _ =>
    match ev with
    | .run => exec cfg s
    | .signal _ =>
      -- lines 72-77: die
      { s with pc := .cu_kbmode EXIT_FAILURE, triggers := s.triggers + 1 }
    | .alarm =>
      -- lines 80-84: watch_dog
      { s with pc := .cu_kbmode EXIT_SUCCESS, triggers := s.triggers + 1 }
    | .input buf n =>
      match s.pc with
      | .read =>
        -- lines 266-293, then back to line 263 unless line 289 was reached
        match (process_buffer cfg buf n).quit_event with
        | some _ => { s with pc := .cu_kbmode EXIT_SUCCESS, triggers := s.triggers + 1 }
        | none => s
      | _ => s

/-- The session after a sequence of events. -/
def run (cfg : Config) (s : Session) (evs : List Ev) : Session :=
  evs.foldl (step cfg) s

/-- The session right after the handlers were installed (line 237): the
console has keyboard mode `kbmode` and attributes `attrs`, the descriptor
returned by `getfd` is open, and the statics are still zero. -/
def start (kbmode : Nat) (attrs : Termios) : Session :=
  { m := { kbmode := kbmode, attrs := attrs, fd_open := true, oldkbmode := 0,
           old := Termios.zero, mode_restores := [], attr_restores := [], warnings := 0 },
    new := Termios.zero, pc := .get_mode, triggers := 0 }

/-! ## Facts about one pass of the loop body -/

/-- What the legacy branch (lines 283-284) computes from the byte at `k`. -/
def legacyEvent (buf : List Nat) (k : Nat) : KeyEvent :=
  { kc := rd buf k &&& 0x7f, is_released := (rd buf k &&& 0x80) != 0, bytes_consumed := 1 }

/-- What the extended branch (lines 280-281) computes from the bytes at `i`,
`i + 1`, `i + 2`. -/
def extendedEvent (buf : List Nat) (i : Nat) : KeyEvent :=
  { kc := ((rd buf (i + 1) &&& 0x7f) <<< 7) ||| (rd buf (i + 2) &&& 0x7f),
    is_released := (rd buf i &&& 0x80) != 0, bytes_consumed := 3 }

/-- The relation between consecutive cursor values. -/
def Advance (a b : Nat) : Prop := b = a + 1 ∨ b = a + 3

/-- The bounds every computed event satisfies. -/
def KeyEvent.InRange (e : KeyEvent) : Prop :=
  e.kc ≤ 16383 ∧ (e.bytes_consumed = 1 → e.kc ≤ 127) ∧
    (e.bytes_consumed = 1 ∨ e.bytes_consumed = 3)

/-- Terminal attributes of an interactive console, used in the examples. -/
def cooked : Termios := ⟨0x500, 0x8a3b, 1, 0⟩

/-- The default options (lines 111-114), used in the examples. -/
def defaults : Config := ⟨true, 0, 10⟩

/-- A machine in the middle of a session: medium-raw mode on an open
descriptor, with the statics holding the snapshot. -/
def in_session : Machine :=
  { kbmode := K_MEDIUMRAW, attrs := raw_attrs cooked, fd_open := true, oldkbmode := K_XLATE,
    old := cooked, mode_restores := [], attr_restores := [], warnings := 0 }

/-- The machine `in_session` after one `clean_up`. -/
def after_clean_up : Machine :=
  { kbmode := K_XLATE, attrs := cooked, fd_open := false, oldkbmode := K_XLATE,
    old := cooked, mode_restores := [K_XLATE], attr_restores := [cooked], warnings := 0 }

/-- The console has the keyboard mode and attributes given, and `clean_up`
wrote each of the two at least once. -/
def Restored (kbmode : Nat) (attrs : Termios) (m : Machine) : Prop :=
  m.kbmode = kbmode ∧ m.attrs = attrs ∧
    1 ≤ m.mode_restores.length ∧ 1 ≤ m.attr_restores.length

/-- What holds at a control point once the snapshot of lines 239-240 has been
taken, for the machine `m` after `trig` termination triggers. -/
def AtPc (kbmode : Nat) (attrs : Termios) (m : Machine) (trig : Nat) : Pc → Prop
  | .get_mode => False
  | .tcgetattr_old => False
  | .tcgetattr_new | .tcsetattr_new | .set_kbmode | .read =>
    m.fd_open = true ∧
      m.mode_restores.length ≤ trig ∧ m.attr_restores.length ≤ trig
  | .cu_kbmode _ =>
    (m.fd_open = false → Restored kbmode attrs m) ∧
      m.mode_restores.length + 1 ≤ trig ∧ m.attr_restores.length + 1 ≤ trig
  | .cu_tcsetattr _ =>
    m.fd_open = true ∧ m.kbmode = kbmode ∧ 1 ≤ m.mode_restores.length ∧
      m.mode_restores.length ≤ trig ∧ m.attr_restores.length + 1 ≤ trig
  | .cu_close _ | .cu_return _ | .exited _ =>
    Restored kbmode attrs m ∧
      m.mode_restores.length ≤ trig ∧ m.attr_restores.length ≤ trig

/-- The invariant of a session whose snapshot is complete: the statics hold
the mode and attributes of the session start, `clean_up` never wrote anything
else, and `AtPc` holds at the current control point. -/
def SnapshotInv (kbmode : Nat) (attrs : Termios) (s : Session) : Prop :=
  s.m.oldkbmode = kbmode ∧ s.m.old = attrs ∧
    (∀ x ∈ s.m.mode_restores, x = kbmode) ∧ (∀ x ∈ s.m.attr_restores, x = attrs) ∧
    AtPc kbmode attrs s.m s.triggers s.pc

theorem isExt_iff (buf : List Nat) (n i : Nat) :
    isExt buf n i = true ↔
      i + 2 < n ∧ rd buf i &&& 0x7f = 0 ∧ rd buf (i + 1) &&& 0x80 ≠ 0 ∧
        rd buf (i + 2) &&& 0x80 ≠ 0 := by
  simp [isExt, and_assoc]

theorem decodeAt_ext {buf : List Nat} {n i : Nat} (h : isExt buf n i = true) :
    decodeAt buf n i = extendedEvent buf i := by
  simp [decodeAt, extendedEvent, h]

theorem decodeAt_legacy {buf : List Nat} {n i : Nat} (h : isExt buf n i = false) :
    decodeAt buf n i = legacyEvent buf i := by
  simp [decodeAt, legacyEvent, h]

theorem decodeAt_cases (buf : List Nat) (n i : Nat) :
    (isExt buf n i = true ∧ decodeAt buf n i = extendedEvent buf i) ∨
      (isExt buf n i = false ∧ decodeAt buf n i = legacyEvent buf i) := by
  cases h : isExt buf n i
  · exact Or.inr ⟨rfl, decodeAt_legacy h⟩
  · exact Or.inl ⟨rfl, decodeAt_ext h⟩

theorem decodeAt_width (buf : List Nat) (n i : Nat) :
    (decodeAt buf n i).bytes_consumed = 1 ∨ (decodeAt buf n i).bytes_consumed = 3 := by
  rcases decodeAt_cases buf n i with ⟨_, h⟩ | ⟨_, h⟩ <;> simp [h, extendedEvent, legacyEvent]

/-- The cursor never passes `n`: the 3-byte branch needs `i + 2 < n`. -/
theorem decodeAt_cursor_le {buf : List Nat} {n i : Nat} (hi : i < n) :
    i + (decodeAt buf n i).bytes_consumed ≤ n := by
  rcases decodeAt_cases buf n i with ⟨hx, h⟩ | ⟨_, h⟩
  · have := ((isExt_iff buf n i).1 hx).1
    simp only [h, extendedEvent]; omega
  · simp only [h, legacyEvent]; omega

theorem extended_kc_le (buf : List Nat) (i : Nat) : (extendedEvent buf i).kc ≤ 16383 := by
  have h1 : rd buf (i + 1) &&& 0x7f ≤ 0x7f := Nat.and_le_right
  have h2 : rd buf (i + 2) &&& 0x7f ≤ 0x7f := Nat.and_le_right
  have h3 : (rd buf (i + 1) &&& 0x7f) <<< 7 < 2 ^ 14 := by
    rw [Nat.shiftLeft_eq]; omega
  have h4 : rd buf (i + 2) &&& 0x7f < 2 ^ 14 := by omega
  have := Nat.or_lt_two_pow h3 h4
  simp only [extendedEvent]; omega

theorem legacy_kc_le (buf : List Nat) (i : Nat) : (legacyEvent buf i).kc ≤ 127 := by
  simp only [legacyEvent]; exact Nat.and_le_right

theorem decodeAt_inRange (buf : List Nat) (n i : Nat) : (decodeAt buf n i).InRange := by
  rcases decodeAt_cases buf n i with ⟨_, h⟩ | ⟨_, h⟩
  · rw [h]
    exact ⟨extended_kc_le buf i, by simp [extendedEvent], Or.inr rfl⟩
  · rw [h]
    exact ⟨le_trans (legacy_kc_le buf i) (by norm_num), fun _ => legacy_kc_le buf i, Or.inl rfl⟩

theorem readsAt_lt {buf : List Nat} {n i : Nat} (hi : i < n) : ∀ j ∈ readsAt buf n i, j < n := by
  intro j hj
  by_cases h2 : i + 2 < n
  · have hx : ∀ k ∈ (if isExt buf n i = true then [i + 1, i + 2] else [i]), k < n := by
      intro k hk
      split at hk <;> simp at hk <;> omega
    simp only [readsAt, h2, if_true, List.mem_append, List.mem_singleton] at hj
    rcases hj with (hj | hj | hj) | hj
    · omega
    · omega
    · split at hj
      · simp only [List.mem_append, List.mem_singleton] at hj
        rcases hj with hj | hj
        · omega
        · split at hj <;> simp at hj
          omega
      · simp at hj
    · exact hx j hj
  · have hx : isExt buf n i = false := by
      cases h : isExt buf n i
      · rfl
      · exact absurd ((isExt_iff buf n i).1 h).1 h2
    simp [readsAt, h2, hx] at hj
    omega

/-! ## Facts about the loop -/

theorem keycodeLoop_succ (sk : Bool) (q : Nat) (buf : List Nat) (n fuel i : Nat) (hi : i < n) :
    keycodeLoop sk q buf n (fuel + 1) i =
      if (decodeAt buf n i).kc = q ∧ (decodeAt buf n i).is_released = true then
        { events := [decodeAt buf n i],
          printed := if sk then [decodeAt buf n i] else [],
          cursors := [i],
          reads := readsAt buf n i,
          outcome := .quit (decodeAt buf n i) (i + (decodeAt buf n i).bytes_consumed) }
      else
        { events := decodeAt buf n i ::
            (keycodeLoop sk q buf n fuel (i + (decodeAt buf n i).bytes_consumed)).events,
          printed := (if sk then [decodeAt buf n i] else []) ++
            (keycodeLoop sk q buf n fuel (i + (decodeAt buf n i).bytes_consumed)).printed,
          cursors := i ::
            (keycodeLoop sk q buf n fuel (i + (decodeAt buf n i).bytes_consumed)).cursors,
          reads := readsAt buf n i ++
            (keycodeLoop sk q buf n fuel (i + (decodeAt buf n i).bytes_consumed)).reads,
          outcome :=
            (keycodeLoop sk q buf n fuel (i + (decodeAt buf n i).bytes_consumed)).outcome } := by
  simp only [keycodeLoop, hi, if_true]

theorem keycodeLoop_stop (sk : Bool) (q : Nat) (buf : List Nat) (n fuel i : Nat) (hi : ¬ i < n) :
    keycodeLoop sk q buf n fuel i =
      { events := [], printed := [], cursors := [], reads := [], outcome := .done i } := by
  cases fuel <;> simp [keycodeLoop, hi]

theorem decodeFrom_succ (buf : List Nat) (n fuel i : Nat) (hi : i < n) :
    decodeFrom buf n (fuel + 1) i =
      (decodeFrom buf n fuel (i + (decodeAt buf n i).bytes_consumed)).map
        (fun evs => decodeAt buf n i :: evs) := by
  simp only [decodeFrom, hi, if_true]

theorem decodeFrom_stop (buf : List Nat) (n fuel i : Nat) (hi : ¬ i < n) :
    decodeFrom buf n fuel i = some [] := by
  cases fuel <;> simp [decodeFrom, hi]

/-- With a budget of at least `n - i` passes the event sequence exists. -/
theorem decodeFrom_total (buf : List Nat) (n : Nat) :
    ∀ fuel i, n - i ≤ fuel → ∃ evs, decodeFrom buf n fuel i = some evs := by
  intro fuel
  induction fuel with
  | zero =>
    intro i h
    exact ⟨[], decodeFrom_stop buf n 0 i (by omega)⟩
  | succ fuel ih =>
    intro i h
    by_cases hi : i < n
    · have hw := decodeAt_width buf n i
      obtain ⟨evs, he⟩ := ih (i + (decodeAt buf n i).bytes_consumed) (by omega)
      exact ⟨decodeAt buf n i :: evs, by rw [decodeFrom_succ buf n fuel i hi, he]; rfl⟩
    · exact ⟨[], decodeFrom_stop buf n _ i hi⟩

/-- The loop with the exit of line 288 processes a prefix of the event
sequence: all of it when it ends at `i < n` false, and up to the event that
satisfied line 288 otherwise. -/
theorem keycodeLoop_events (sk : Bool) (q : Nat) (buf : List Nat) (n : Nat) :
    ∀ fuel i evs, decodeFrom buf n fuel i = some evs →
      (keycodeLoop sk q buf n fuel i).events <+: evs ∧
      (keycodeLoop sk q buf n fuel i).printed =
        (if sk then (keycodeLoop sk q buf n fuel i).events else []) ∧
      (∀ c, (keycodeLoop sk q buf n fuel i).outcome ≠ .out_of_fuel c) ∧
      (∀ c, (keycodeLoop sk q buf n fuel i).outcome = .done c →
        (keycodeLoop sk q buf n fuel i).events = evs) ∧
      (∀ ev c, (keycodeLoop sk q buf n fuel i).outcome = .quit ev c →
        ev.kc = q ∧ ev.is_released = true ∧
          (keycodeLoop sk q buf n fuel i).events.getLast? = some ev) ∧
      (∀ e ∈ (keycodeLoop sk q buf n fuel i).events.dropLast,
        ¬ (e.kc = q ∧ e.is_released = true)) := by
  intro fuel
  induction fuel with
  | zero =>
    intro i evs h
    by_cases hi : i < n
    · simp [decodeFrom, hi] at h
    · rw [decodeFrom_stop buf n 0 i hi] at h
      rw [keycodeLoop_stop sk q buf n 0 i hi]
      simp only [Option.some.injEq] at h
      subst h
      simp
  | succ fuel ih =>
    intro i evs h
    by_cases hi : i < n
    · rw [decodeFrom_succ buf n fuel i hi] at h
      rw [keycodeLoop_succ sk q buf n fuel i hi]
      cases hd : decodeFrom buf n fuel (i + (decodeAt buf n i).bytes_consumed) with
      | none => simp [hd] at h
      | some tl =>
        rw [hd] at h
        simp only [Option.map_some', Option.some.injEq] at h
        subst h
        obtain ⟨h1, h2, h3, h4, h5, h6⟩ := ih _ tl hd
        by_cases hq : (decodeAt buf n i).kc = q ∧ (decodeAt buf n i).is_released = true
        · rw [if_pos hq]
          refine ⟨?_, ?_, ?_, ?_, ?_, ?_⟩
          · exact ⟨tl, rfl⟩
          · cases sk <;> simp
          · intro c; simp
          · intro c; simp
          · intro ev c hc
            simp only [Outcome.quit.injEq] at hc
            obtain ⟨rfl, _⟩ := hc
            exact ⟨hq.1, hq.2, rfl⟩
          · simp
        · rw [if_neg hq]
          refine ⟨?_, ?_, ?_, ?_, ?_, ?_⟩
          · exact List.prefix_cons_inj _ |>.2 h1
          · simp only [h2]; cases sk <;> simp
          · exact h3
          · intro c hc
            simp only at hc ⊢
            rw [h4 c hc]
          · intro ev c hc
            obtain ⟨a, b, d⟩ := h5 ev c hc
            refine ⟨a, b, ?_⟩
            simp only
            rw [List.getLast?_cons, d]
            rfl
          · intro e he
            simp only at he
            cases hev : (keycodeLoop sk q buf n fuel
                (i + (decodeAt buf n i).bytes_consumed)).events with
            | nil => simp [hev] at he
            | cons x xs =>
              rw [hev, List.dropLast_cons₂] at he
              rcases List.mem_cons.1 he with rfl | he
              · exact hq
              · exact h6 e (by rw [hev]; exact he)
    · rw [decodeFrom_stop buf n _ i hi] at h
      rw [keycodeLoop_stop sk q buf n _ i hi]
      simp only [Option.some.injEq] at h
      subst h
      simp

/-- Cursors, widths and reads of a run of the loop that has budget enough. -/
theorem keycodeLoop_cursor (sk : Bool) (q : Nat) (buf : List Nat) (n : Nat) :
    ∀ fuel i, i ≤ n → n - i ≤ fuel →
      (∀ j ∈ (keycodeLoop sk q buf n fuel i).reads, j < n) ∧
      (∀ c ∈ (keycodeLoop sk q buf n fuel i).cursors, i ≤ c ∧ c < n) ∧
      (keycodeLoop sk q buf n fuel i).cursors.length =
        (keycodeLoop sk q buf n fuel i).events.length ∧
      (∀ c, (keycodeLoop sk q buf n fuel i).outcome = .done c →
        c = n ∧
        i + ((keycodeLoop sk q buf n fuel i).events.map KeyEvent.bytes_consumed).sum = n ∧
        ∃ rest, (keycodeLoop sk q buf n fuel i).cursors ++ [n] = i :: rest ∧
          List.Chain Advance i rest) := by
  intro fuel
  induction fuel with
  | zero =>
    intro i h1 h2
    have hi : ¬ i < n := by omega
    rw [keycodeLoop_stop sk q buf n 0 i hi]
    refine ⟨by simp, by simp, rfl, ?_⟩
    intro c hc
    simp only [Outcome.done.injEq] at hc
    subst hc
    exact ⟨by omega, by simp; omega, [], by simp; omega, List.Chain.nil⟩
  | succ fuel ih =>
    intro i h1 h2
    by_cases hi : i < n
    · have hw := decodeAt_width buf n i
      have hle := @decodeAt_cursor_le buf n i hi
      obtain ⟨r1, r2, r3, r4⟩ := ih (i + (decodeAt buf n i).bytes_consumed) hle (by omega)
      rw [keycodeLoop_succ sk q buf n fuel i hi]
      by_cases hq : (decodeAt buf n i).kc = q ∧ (decodeAt buf n i).is_released = true
      · rw [if_pos hq]
        refine ⟨readsAt_lt hi, ?_, rfl, ?_⟩
        · intro c hc
          simp only [List.mem_singleton] at hc
          omega
        · intro c hc
          simp at hc
      · rw [if_neg hq]
        refine ⟨?_, ?_, ?_, ?_⟩
        · intro j hj
          simp only [List.mem_append] at hj
          rcases hj with hj | hj
          · exact readsAt_lt hi j hj
          · exact r1 j hj
        · intro c hc
          simp only [List.mem_cons] at hc
          rcases hc with rfl | hc
          · exact ⟨le_refl _, hi⟩
          · have := r2 c hc
            omega
        · simp only [List.length_cons, r3]
        · intro c hc
          obtain ⟨a, b, rest, d, e⟩ := r4 c hc
          refine ⟨a, ?_, ?_⟩
          · simp only [List.map_cons, List.sum_cons]
            omega
          · refine ⟨(i + (decodeAt buf n i).bytes_consumed) :: rest, ?_, ?_⟩
            · simp only [List.cons_append, d]
            · refine List.Chain.cons ?_ e
              rcases hw with hw | hw
              · exact Or.inl (by rw [hw])
              · exact Or.inr (by rw [hw])
    · have : i = n := by omega
      subst this
      rw [keycodeLoop_stop sk q buf i _ i hi]
      refine ⟨by simp, by simp, rfl, ?_⟩
      intro c hc
      simp only [Outcome.done.injEq] at hc
      subst hc
      exact ⟨rfl, by simp, [], by simp, List.Chain.nil⟩

theorem decodeFrom_inRange (buf : List Nat) (n : Nat) :
    ∀ fuel i evs, decodeFrom buf n fuel i = some evs → ∀ e ∈ evs, e.InRange := by
  intro fuel
  induction fuel with
  | zero =>
    intro i evs h e he
    by_cases hi : i < n
    · simp [decodeFrom, hi] at h
    · rw [decodeFrom_stop buf n 0 i hi] at h
      simp only [Option.some.injEq] at h
      subst h
      simp at he
  | succ fuel ih =>
    intro i evs h e he
    by_cases hi : i < n
    · rw [decodeFrom_succ buf n fuel i hi] at h
      cases hd : decodeFrom buf n fuel (i + (decodeAt buf n i).bytes_consumed) with
      | none => simp [hd] at h
      | some tl =>
        rw [hd] at h
        simp only [Option.map_some', Option.some.injEq] at h
        subst h
        rcases List.mem_cons.1 he with rfl | he
        · exact decodeAt_inRange buf n i
        · exact ih _ tl hd e he
    · rw [decodeFrom_stop buf n _ i hi] at h
      simp only [Option.some.injEq] at h
      subst h
      simp at he

/-- When the test of line 279 fails everywhere the events are the legacy
events of the bytes, one per byte. -/
theorem decodeFrom_legacy (buf : List Nat) (n : Nat) (h : ∀ k, k < n → isExt buf n k = false) :
    ∀ fuel i, i ≤ n → n - i ≤ fuel →
      decodeFrom buf n fuel i = some ((List.range' i (n - i)).map (legacyEvent buf)) := by
  intro fuel
  induction fuel with
  | zero =>
    intro i h1 h2
    have hi : ¬ i < n := by omega
    rw [decodeFrom_stop buf n 0 i hi]
    have : n - i = 0 := by omega
    simp [this]
  | succ fuel ih =>
    intro i h1 h2
    by_cases hi : i < n
    · have hl := decodeAt_legacy (h i hi)
      rw [decodeFrom_succ buf n fuel i hi, hl]
      have hb : (legacyEvent buf i).bytes_consumed = 1 := rfl
      rw [hb, ih (i + 1) (by omega) (by omega)]
      have : n - i = (n - (i + 1)) + 1 := by omega
      rw [this, List.range'_succ]
      simp
    · rw [decodeFrom_stop buf n _ i hi]
      have : n - i = 0 := by omega
      simp [this]

theorem keycodeLoop_quit (sk : Bool) (q : Nat) (buf : List Nat) (n fuel i : Nat) (hi : i < n)
    (hq : (decodeAt buf n i).kc = q ∧ (decodeAt buf n i).is_released = true) :
    (keycodeLoop sk q buf n (fuel + 1) i).events = [decodeAt buf n i] ∧
    (keycodeLoop sk q buf n (fuel + 1) i).cursors = [i] ∧
    (keycodeLoop sk q buf n (fuel + 1) i).outcome =
      .quit (decodeAt buf n i) (i + (decodeAt buf n i).bytes_consumed) := by
  rw [keycodeLoop_succ sk q buf n fuel i hi, if_pos hq]
  exact ⟨rfl, rfl, rfl⟩

theorem keycodeLoop_cont (sk : Bool) (q : Nat) (buf : List Nat) (n fuel i : Nat) (hi : i < n)
    (hq : ¬ ((decodeAt buf n i).kc = q ∧ (decodeAt buf n i).is_released = true)) :
    (keycodeLoop sk q buf n (fuel + 1) i).events = decodeAt buf n i ::
      (keycodeLoop sk q buf n fuel (i + (decodeAt buf n i).bytes_consumed)).events ∧
    (keycodeLoop sk q buf n (fuel + 1) i).cursors = i ::
      (keycodeLoop sk q buf n fuel (i + (decodeAt buf n i).bytes_consumed)).cursors ∧
    (keycodeLoop sk q buf n (fuel + 1) i).outcome =
      (keycodeLoop sk q buf n fuel (i + (decodeAt buf n i).bytes_consumed)).outcome := by
  rw [keycodeLoop_succ sk q buf n fuel i hi, if_neg hq]
  exact ⟨rfl, rfl, rfl⟩

theorem keycodeLoop_printed (sk : Bool) (q : Nat) (buf : List Nat) (n : Nat) :
    ∀ fuel i, (keycodeLoop sk q buf n fuel i).printed =
      if sk then (keycodeLoop sk q buf n fuel i).events else [] := by
  intro fuel
  induction fuel with
  | zero => intro i; simp [keycodeLoop]
  | succ fuel ih =>
    intro i
    by_cases hi : i < n
    · rw [keycodeLoop_succ sk q buf n fuel i hi]
      split
      · cases sk <;> rfl
      · simp only [ih]
        cases sk <;> rfl
    · rw [keycodeLoop_stop sk q buf n _ i hi]
      simp

/-- The first cursor of a run is the cursor it was started at. -/
theorem keycodeLoop_cursors_head (sk : Bool) (q : Nat) (buf : List Nat) (n fuel i : Nat)
    (hi : i < n) : (keycodeLoop sk q buf n (fuel + 1) i).cursors[0]? = some i := by
  by_cases hq : (decodeAt buf n i).kc = q ∧ (decodeAt buf n i).is_released = true
  · rw [(keycodeLoop_quit sk q buf n fuel i hi hq).2.1]; rfl
  · rw [(keycodeLoop_cont sk q buf n fuel i hi hq).2.1]; exact List.getElem?_cons_zero

theorem keycodeLoop_cursors_ge (sk : Bool) (q : Nat) (buf : List Nat) (n : Nat) :
    ∀ fuel i, ∀ c ∈ (keycodeLoop sk q buf n fuel i).cursors, i ≤ c := by
  intro fuel
  induction fuel with
  | zero => intro i c hc; simp [keycodeLoop] at hc
  | succ fuel ih =>
    intro i c hc
    by_cases hi : i < n
    · by_cases hq : (decodeAt buf n i).kc = q ∧ (decodeAt buf n i).is_released = true
      · rw [(keycodeLoop_quit sk q buf n fuel i hi hq).2.1] at hc
        simp only [List.mem_singleton] at hc
        omega
      · rw [(keycodeLoop_cont sk q buf n fuel i hi hq).2.1] at hc
        simp only [List.mem_cons] at hc
        rcases hc with rfl | hc
        · exact le_refl _
        · have := ih _ c hc
          omega
    · rw [keycodeLoop_stop sk q buf n _ i hi] at hc
      simp at hc

/-- Between two cursor values of one run lies at least the width of the event
computed at the smaller one. -/
theorem keycodeLoop_cursors_gap (sk : Bool) (q : Nat) (buf : List Nat) (n : Nat) :
    ∀ fuel i, ∀ c ∈ (keycodeLoop sk q buf n fuel i).cursors,
      ∀ d ∈ (keycodeLoop sk q buf n fuel i).cursors,
        c < d → c + (decodeAt buf n c).bytes_consumed ≤ d := by
  intro fuel
  induction fuel with
  | zero => intro i c hc; simp [keycodeLoop] at hc
  | succ fuel ih =>
    intro i c hc d hd hcd
    by_cases hi : i < n
    · by_cases hq : (decodeAt buf n i).kc = q ∧ (decodeAt buf n i).is_released = true
      · rw [(keycodeLoop_quit sk q buf n fuel i hi hq).2.1] at hc hd
        simp only [List.mem_singleton] at hc hd
        omega
      · rw [(keycodeLoop_cont sk q buf n fuel i hi hq).2.1] at hc hd
        simp only [List.mem_cons] at hc hd
        rcases hc with hc | hc
        · rcases hd with hd | hd
          · omega
          · subst hc
            exact keycodeLoop_cursors_ge sk q buf n fuel _ d hd
        · rcases hd with hd | hd
          · have := keycodeLoop_cursors_ge sk q buf n fuel _ c hc
            omega
          · exact ih _ c hc d hd hcd
    · rw [keycodeLoop_stop sk q buf n _ i hi] at hc
      simp at hc

/-- The pass number `k` of a run: its cursor `c` is below `n`, its event is the
one computed at `c`, and the cursor after it is `c` plus the width of that
event, whether the loop goes on or ends there. -/
theorem keycodeLoop_nth (sk : Bool) (q : Nat) (buf : List Nat) (n : Nat) :
    ∀ fuel i k c, (keycodeLoop sk q buf n fuel i).cursors[k]? = some c →
      c < n ∧
      (keycodeLoop sk q buf n fuel i).events[k]? = some (decodeAt buf n c) ∧
      ((keycodeLoop sk q buf n fuel i).cursors[k + 1]? =
          some (c + (decodeAt buf n c).bytes_consumed) ∨
        ((keycodeLoop sk q buf n fuel i).cursors.length = k + 1 ∧
          ((keycodeLoop sk q buf n fuel i).outcome =
              .done (c + (decodeAt buf n c).bytes_consumed) ∨
            (keycodeLoop sk q buf n fuel i).outcome =
              .quit (decodeAt buf n c) (c + (decodeAt buf n c).bytes_consumed) ∨
            (keycodeLoop sk q buf n fuel i).outcome =
              .out_of_fuel (c + (decodeAt buf n c).bytes_consumed)))) := by
  intro fuel
  induction fuel with
  | zero => intro i k c hc; simp [keycodeLoop] at hc
  | succ fuel ih =>
    intro i k c hc
    by_cases hi : i < n
    · by_cases hq : (decodeAt buf n i).kc = q ∧ (decodeAt buf n i).is_released = true
      · obtain ⟨e1, e2, e3⟩ := keycodeLoop_quit sk q buf n fuel i hi hq
        rw [e2] at hc
        rw [e1, e2, e3]
        cases k with
        | zero =>
          simp only [List.getElem?_cons_zero, Option.some.injEq] at hc
          subst hc
          exact ⟨hi, rfl, Or.inr ⟨rfl, Or.inr (Or.inl rfl)⟩⟩
        | succ k => simp at hc
      · obtain ⟨e1, e2, e3⟩ := keycodeLoop_cont sk q buf n fuel i hi hq
        rw [e2] at hc
        rw [e1, e2, e3]
        cases k with
        | zero =>
          simp only [List.getElem?_cons_zero, Option.some.injEq] at hc
          subst hc
          refine ⟨hi, List.getElem?_cons_zero, ?_⟩
          -- the rest of the run starts at the advanced cursor
          by_cases hn : i + (decodeAt buf n i).bytes_consumed < n
          · cases fuel with
            | zero =>
              right
              exact ⟨by simp [keycodeLoop], Or.inr (Or.inr (by simp [keycodeLoop, hn]))⟩
            | succ fuel =>
              left
              simp only [zero_add, List.getElem?_cons_succ]
              exact keycodeLoop_cursors_head sk q buf n fuel _ hn
          · right
            rw [keycodeLoop_stop sk q buf n _ _ hn]
            exact ⟨rfl, Or.inl rfl⟩
        | succ k =>
          simp only [List.getElem?_cons_succ] at hc
          obtain ⟨a, b, e⟩ := ih _ k c hc
          refine ⟨a, ?_, ?_⟩
          · simpa only [List.getElem?_cons_succ] using b
          · rcases e with e | ⟨e1, e2⟩
            · left
              simpa only [List.getElem?_cons_succ] using e
            · right
              exact ⟨by simp only [List.length_cons, e1], e2⟩
    · rw [keycodeLoop_stop sk q buf n _ i hi] at hc
      simp at hc

/-- When the test of line 279 fails everywhere, a run that does not take the
exit of line 289 ends at `n` after one pass per position. -/
theorem keycodeLoop_legacy (sk : Bool) (q : Nat) (buf : List Nat) (n : Nat)
    (h : ∀ k, k < n → isExt buf n k = false) :
    ∀ fuel i, i ≤ n → n - i ≤ fuel →
      (keycodeLoop sk q buf n fuel i).outcome.is_quit = false →
      (keycodeLoop sk q buf n fuel i).outcome = .done n ∧
      (keycodeLoop sk q buf n fuel i).cursors = List.range' i (n - i) := by
  intro fuel
  induction fuel with
  | zero =>
    intro i h1 h2 _
    have hi : ¬ i < n := by omega
    have hn : i = n := by omega
    rw [keycodeLoop_stop sk q buf n 0 i hi]
    subst hn
    simp
  | succ fuel ih =>
    intro i h1 h2 hq
    by_cases hi : i < n
    · have hw : (decodeAt buf n i).bytes_consumed = 1 := by
        rw [decodeAt_legacy (h i hi)]; rfl
      by_cases hx : (decodeAt buf n i).kc = q ∧ (decodeAt buf n i).is_released = true
      · rw [(keycodeLoop_quit sk q buf n fuel i hi hx).2.2] at hq
        simp [Outcome.is_quit] at hq
      · obtain ⟨_, e2, e3⟩ := keycodeLoop_cont sk q buf n fuel i hi hx
        rw [e3] at hq
        rw [hw] at e2 e3 hq
        obtain ⟨a, b⟩ := ih (i + 1) (by omega) (by omega) hq
        rw [e2, e3, b]
        refine ⟨a, ?_⟩
        have : n - i = (n - (i + 1)) + 1 := by omega
        rw [this, List.range'_succ]
    · have hn : i = n := by omega
      rw [keycodeLoop_stop sk q buf n _ i hi]
      subst hn
      simp

theorem map_rd_range (buf : List Nat) (f : Nat → KeyEvent) :
    (List.range buf.length).map (fun k => f (rd buf k)) = buf.map f := by
  apply List.ext_getElem?
  intro k
  by_cases hk : k < buf.length
  · simp [rd, hk, List.getElem?_range, List.getD_eq_getElem?_getD, List.getElem?_eq_getElem hk]
  · simp [hk, List.getElem?_eq_none (not_lt.1 hk), List.getElem?_range]
    omega

/-- The events a run of the loop processed are in range. -/
theorem keycodeLoop_inRange (sk : Bool) (q : Nat) (buf : List Nat) (n : Nat) :
    ∀ e ∈ (keycodeLoop sk q buf n n 0).events, e.InRange := by
  intro e he
  obtain ⟨evs, hd⟩ := decodeFrom_total buf n n 0 (by omega)
  exact decodeFrom_inRange buf n n 0 evs hd e
    ((keycodeLoop_events sk q buf n n 0 evs hd).1.subset he)

/-! ## The decoder claims -/

/-- C1: at a cursor `i` that the decoding loop of a buffer reaches (as its
pass number `k`) with `i + 2 < n`, `(buf[i] & 0x7f) = 0` and the high bits of
`buf[i + 1]` and `buf[i + 2]` set, the loop computes exactly one event for the
three bytes, with `kc = ((buf[i+1] & 0x7f) << 7) | (buf[i+2] & 0x7f)` and
`is_released = ((buf[i] & 0x80) != 0)`, prints it in keycode mode, and leaves
the cursor at `i + 3`: the next pass starts there, or the loop ends there
(`n` reached, or line 288 held for this very event).  No pass starts at
`i + 1` or `i + 2`, and the event sequence from `i` is this event followed by
the event sequence from `i + 3`. -/
theorem extended_decoding (sk : Bool) (q : Nat) (buf : List Nat) (n k i : Nat)
    (hreach : (keycodeLoop sk q buf n n 0).cursors[k]? = some i)
    (h3 : i + 2 < n) (h0 : rd buf i &&& 0x7f = 0)
    (h1 : rd buf (i + 1) &&& 0x80 ≠ 0) (h2 : rd buf (i + 2) &&& 0x80 ≠ 0) :
    (keycodeLoop sk q buf n n 0).events[k]? =
      some { kc := ((rd buf (i + 1) &&& 0x7f) <<< 7) ||| (rd buf (i + 2) &&& 0x7f),
             is_released := (rd buf i &&& 0x80) != 0, bytes_consumed := 3 } ∧
    (sk = true → (keycodeLoop sk q buf n n 0).printed[k]? =
      some { kc := ((rd buf (i + 1) &&& 0x7f) <<< 7) ||| (rd buf (i + 2) &&& 0x7f),
             is_released := (rd buf i &&& 0x80) != 0, bytes_consumed := 3 }) ∧
    ((keycodeLoop sk q buf n n 0).cursors[k + 1]? = some (i + 3) ∨
      ((keycodeLoop sk q buf n n 0).cursors.length = k + 1 ∧
        ((keycodeLoop sk q buf n n 0).outcome = .done (i + 3) ∨
          (keycodeLoop sk q buf n n 0).outcome =
            .quit { kc := ((rd buf (i + 1) &&& 0x7f) <<< 7) ||| (rd buf (i + 2) &&& 0x7f),
                    is_released := (rd buf i &&& 0x80) != 0, bytes_consumed := 3 } (i + 3)))) ∧
    i + 1 ∉ (keycodeLoop sk q buf n n 0).cursors ∧
    i + 2 ∉ (keycodeLoop sk q buf n n 0).cursors ∧
    (∀ fuel, decodeFrom buf n (fuel + 1) i =
      (decodeFrom buf n fuel (i + 3)).map (fun evs =>
        { kc := ((rd buf (i + 1) &&& 0x7f) <<< 7) ||| (rd buf (i + 2) &&& 0x7f),
          is_released := (rd buf i &&& 0x80) != 0, bytes_consumed := 3 } :: evs)) := by
  have hx : isExt buf n i = true := (isExt_iff buf n i).2 ⟨h3, h0, h1, h2⟩
  have hev : decodeAt buf n i = extendedEvent buf i := decodeAt_ext hx
  have hw : (decodeAt buf n i).bytes_consumed = 3 := by rw [hev]; rfl
  obtain ⟨_, a, b⟩ := keycodeLoop_nth sk q buf n n 0 k i hreach
  rw [hw, hev] at b
  rw [hev] at a
  have hmem : i ∈ (keycodeLoop sk q buf n n 0).cursors := List.getElem?_mem hreach
  obtain ⟨evs, hd⟩ := decodeFrom_total buf n n 0 (by omega)
  have hfuel := (keycodeLoop_events sk q buf n n 0 evs hd).2.2.1
  refine ⟨a, ?_, ?_, ?_, ?_, ?_⟩
  · intro hsk
    subst hsk
    rw [keycodeLoop_printed]
    exact a
  · rcases b with b | ⟨b1, b2 | b2 | b2⟩
    · exact Or.inl b
    · exact Or.inr ⟨b1, Or.inl b2⟩
    · exact Or.inr ⟨b1, Or.inr b2⟩
    · exact absurd b2 (hfuel _)
  · intro h
    have := keycodeLoop_cursors_gap sk q buf n n 0 i hmem (i + 1) h (by omega)
    omega
  · intro h
    have := keycodeLoop_cursors_gap sk q buf n n 0 i hmem (i + 2) h (by omega)
    omega
  · intro fuel
    have := decodeFrom_succ buf n fuel i (by omega)
    rw [hw, hev] at this
    exact this

/-- The extended form at the start of `[0x00, 0x85, 0x81]`. -/
theorem extended_decoding_witness :
    (keycodeLoop true 0 [0x00, 0x85, 0x81] 3 3 0).cursors[0]? = some 0 ∧
    (keycodeLoop true 0 [0x00, 0x85, 0x81] 3 3 0).events[0]? = some ⟨641, false, 3⟩ :=
  ⟨by decide,
   (extended_decoding true 0 [0x00, 0x85, 0x81] 3 0 0 (by decide) (by decide) (by decide)
      (by decide) (by decide)).1⟩

/-- C2, as the spec states it, fails: in `[0x1e, 0x9e, 0x41]` the test of line
279 fails at every position, yet with `quit_keycode = 30` the loop yields two
events, not three: the release `0x9e` satisfies line 288 and the byte `0x41`
is never decoded. -/
theorem legacy_decoding_counterexample :
    (∀ k, k < 3 → isExt [0x1e, 0x9e, 0x41] 3 k = false) ∧
    (keycodeLoop true 30 [0x1e, 0x9e, 0x41] 3 3 0).events =
      [⟨30, false, 1⟩, ⟨30, true, 1⟩] ∧
    (keycodeLoop true 30 [0x1e, 0x9e, 0x41] 3 3 0).events.length ≠ 3 ∧
    (keycodeLoop true 30 [0x1e, 0x9e, 0x41] 3 3 0).outcome = .quit ⟨30, true, 1⟩ 2 ∧
    (process_buffer ⟨true, 30, 10⟩ [0x1e, 0x9e, 0x41] 3).quit_event = some ⟨30, true, 1⟩ := by
  refine ⟨?_, ?_, ?_, ?_, ?_⟩ <;> decide

/-- C2, amended: in a buffer where the test of line 279 fails at every
position, a run of the loop that does not end through the exit of line 289
ends with the cursor at `n` and yields exactly `n` events in byte order, one
per cursor `0, 1, ..., n - 1`, each 1 byte wide, event `k` having
`kc = buf[k] & 0x7f` and `is_released = ((buf[k] & 0x80) != 0)`; in keycode
mode these are the events printed, and when `n` is the length of the buffer
they are the byte-wise image of the buffer.  A run that does take the exit
yields a prefix of them.  With the default `quit_keycode = 0` the three
buffers `[0x41]`, `[0xC1]` and `[0x00, 0x01]` give (65, press), (65, release),
and (0, press) then (1, press). -/
theorem legacy_decoding (buf : List Nat) (n : Nat)
    (h : ∀ k, k < n → isExt buf n k = false) :
    (∀ sk q, (keycodeLoop sk q buf n n 0).outcome.is_quit = false →
      (keycodeLoop sk q buf n n 0).events = (List.range n).map (fun k =>
        ({ kc := rd buf k &&& 0x7f, is_released := (rd buf k &&& 0x80) != 0,
           bytes_consumed := 1 } : KeyEvent)) ∧
      (keycodeLoop sk q buf n n 0).events.length = n ∧
      (keycodeLoop sk q buf n n 0).cursors = List.range n ∧
      (keycodeLoop sk q buf n n 0).outcome = .done n ∧
      (sk = true → (keycodeLoop sk q buf n n 0).printed = (List.range n).map (fun k =>
        ({ kc := rd buf k &&& 0x7f, is_released := (rd buf k &&& 0x80) != 0,
           bytes_consumed := 1 } : KeyEvent))) ∧
      (n = buf.length → (keycodeLoop sk q buf n n 0).events = buf.map (fun b =>
        ({ kc := b &&& 0x7f, is_released := (b &&& 0x80) != 0,
           bytes_consumed := 1 } : KeyEvent)))) ∧
    (∀ sk q, (keycodeLoop sk q buf n n 0).events <+: (List.range n).map (fun k =>
        ({ kc := rd buf k &&& 0x7f, is_released := (rd buf k &&& 0x80) != 0,
           bytes_consumed := 1 } : KeyEvent))) ∧
    (keycodeLoop true 0 [0x41] 1 1 0).events = [⟨65, false, 1⟩] ∧
    (keycodeLoop true 0 [0xC1] 1 1 0).events = [⟨65, true, 1⟩] ∧
    (keycodeLoop true 0 [0x00, 0x01] 2 2 0).events = [⟨0, false, 1⟩, ⟨1, false, 1⟩] ∧
    (keycodeLoop true 0 [0x00, 0x01] 2 2 0).outcome = .done 2 := by
  have hd : decodeFrom buf n n 0 = some ((List.range n).map (fun k =>
      ({ kc := rd buf k &&& 0x7f, is_released := (rd buf k &&& 0x80) != 0,
         bytes_consumed := 1 } : KeyEvent))) := by
    have := decodeFrom_legacy buf n h n 0 (Nat.zero_le _) (by omega)
    rw [Nat.sub_zero, ← List.range_eq_range'] at this
    exact this
  refine ⟨?_, ?_, by decide, by decide, by decide, by decide⟩
  · intro sk q hq
    have hl := keycodeLoop_events sk q buf n n 0 _ hd
    obtain ⟨hout, hcur⟩ := keycodeLoop_legacy sk q buf n h n 0 (Nat.zero_le _) (by omega) hq
    rw [Nat.sub_zero, ← List.range_eq_range'] at hcur
    have hev := hl.2.2.2.1 n hout
    refine ⟨hev, ?_, hcur, hout, ?_, ?_⟩
    · rw [hev]; simp
    · intro hsk
      subst hsk
      rw [keycodeLoop_printed]
      exact hev
    · intro hn
      subst hn
      rw [hev]
      exact map_rd_range buf (fun b =>
        ({ kc := b &&& 0x7f, is_released := (b &&& 0x80) != 0, bytes_consumed := 1 } : KeyEvent))
  · intro sk q
    exact (keycodeLoop_events sk q buf n n 0 _ hd).1

/-- A sentinel byte followed by a single byte, in keycode mode without a quit
key: both bytes are processed as legacy events. -/
theorem legacy_decoding_witness :
    (∀ k, k < 2 → isExt [0x00, 0x01] 2 k = false) ∧
    (keycodeLoop true 0 [0x00, 0x01] 2 2 0).outcome.is_quit = false ∧
    (keycodeLoop true 0 [0x00, 0x01] 2 2 0).events.length = 2 ∧
    (keycodeLoop true 0 [0x00, 0x01] 2 2 0).cursors = List.range 2 :=
  ⟨by decide, by decide,
   ((legacy_decoding [0x00, 0x01] 2 (by decide)).1 true 0 (by decide)).2.1,
   ((legacy_decoding [0x00, 0x01] 2 (by decide)).1 true 0 (by decide)).2.2.1⟩

/-- C3, as the spec states it, fails: the single event of `[0x00, 0x85, 0x81]`
is not a release. -/
theorem sentinel_release_counterexample :
    ¬ ∃ e, decode [0x00, 0x85, 0x81] = some [e] ∧ e.kc = 641 ∧ e.is_released = true := by
  rintro ⟨e, h, _, hr⟩
  have hd : decode [0x00, 0x85, 0x81] = some [⟨641, false, 3⟩] := by decide
  rw [hd] at h
  simp only [Option.some.injEq, List.cons.injEq, and_true] at h
  subst h
  simp at hr

/-- C3, amended: `[0x00, 0x85, 0x81]` decodes to exactly one event, keycode 641,
a press; the release flag of an extended event is the high bit of the sentinel
byte, so `[0x80, 0x85, 0x81]` is the release of keycode 641, and this holds for
every sentinel byte and payload. -/
theorem sentinel_carries_release :
    decode [0x00, 0x85, 0x81] = some [⟨641, false, 3⟩] ∧
    (keycodeLoop true 0 [0x00, 0x85, 0x81] 3 3 0).printed = [⟨641, false, 3⟩] ∧
    decode [0x80, 0x85, 0x81] = some [⟨641, true, 3⟩] ∧
    (∀ b0 b1 b2, isExt [b0, b1, b2] 3 0 = true →
      decode [b0, b1, b2] =
        some [⟨((b1 &&& 0x7f) <<< 7) ||| (b2 &&& 0x7f), (b0 &&& 0x80) != 0, 3⟩]) := by
  refine ⟨by decide, by decide, by decide, ?_⟩
  intro b0 b1 b2 hx
  have hev := decodeAt_ext hx
  have h1 := decodeFrom_succ [b0, b1, b2] 3 2 0 (by omega)
  rw [hev] at h1
  have h2 : decodeFrom [b0, b1, b2] 3 2 (0 + (extendedEvent [b0, b1, b2] 0).bytes_consumed)
      = some [] := decodeFrom_stop _ _ _ _ (by simp [extendedEvent])
  rw [h2] at h1
  exact h1

/-- The release of keycode 641, decoded by the general statement. -/
theorem sentinel_carries_release_witness :
    isExt [0x80, 0x85, 0x81] 3 0 = true ∧
    decode [0x80, 0x85, 0x81] =
      some [⟨((0x85 &&& 0x7f) <<< 7) ||| (0x81 &&& 0x7f), (0x80 &&& 0x80) != 0, 3⟩] :=
  ⟨by decide, sentinel_carries_release.2.2.2 0x80 0x85 0x81 (by decide)⟩

/-- The quit exit is taken exactly when the loop reports it. -/
theorem quit_event_eq_some {cfg : Config} {buf : List Nat} {n : Int} {ev : KeyEvent}
    (h : (process_buffer cfg buf n).quit_event = some ev) :
    ∃ c, (keycodeLoop cfg.show_keycodes cfg.quit_keycode buf n.toNat n.toNat 0).outcome =
      .quit ev c := by
  unfold BufferResult.quit_event process_buffer at h
  by_cases hg : cfg.show_keycodes = true ∨ cfg.quit_keycode ≠ 0
  · simp only [hg, if_true] at h
    cases ho : (keycodeLoop cfg.show_keycodes cfg.quit_keycode buf n.toNat n.toNat 0).outcome with
    | done c => rw [ho] at h; simp at h
    | out_of_fuel c => rw [ho] at h; simp at h
    | quit e c =>
      rw [ho] at h
      simp only [Option.some.injEq] at h
      subst h
      exact ⟨c, rfl⟩
  · simp only [hg, if_false] at h
    simp at h

/-- C4: when processing a buffer reaches line 289 (`clean_up` then
`return EXIT_SUCCESS`), the event being processed is a release whose keycode
is `quit_keycode`, it is one of the decoded events of the buffer and the last
one the loop processed; so a buffer all of whose decoded events are presses
never takes that exit, whatever its keycodes.  In the read loop, a return of
`read` starts `clean_up` with pending status `EXIT_SUCCESS` only in that
case. -/
theorem quit_only_on_release (cfg : Config) (buf : List Nat) (n : Int) :
    (∀ ev, (process_buffer cfg buf n).quit_event = some ev →
      ev.is_released = true ∧ ev.kc = cfg.quit_keycode ∧
      (∃ evs, decodeFrom buf n.toNat n.toNat 0 = some evs ∧ ev ∈ evs) ∧
      (∃ lr, (process_buffer cfg buf n).loop = some lr ∧ lr.events.getLast? = some ev)) ∧
    (∀ evs, decodeFrom buf n.toNat n.toNat 0 = some evs →
      (∀ e ∈ evs, e.is_released = false) →
      (process_buffer cfg buf n).quit_event = none) ∧
    (∀ s : Session, s.pc = .read →
      (step cfg s (.input buf n)).pc =
        if ((process_buffer cfg buf n).quit_event).isSome then .cu_kbmode EXIT_SUCCESS
        else .read) := by
  have key : ∀ ev, (process_buffer cfg buf n).quit_event = some ev →
      ev.is_released = true ∧ ev.kc = cfg.quit_keycode ∧
      (∃ evs, decodeFrom buf n.toNat n.toNat 0 = some evs ∧ ev ∈ evs) ∧
      (∃ lr, (process_buffer cfg buf n).loop = some lr ∧ lr.events.getLast? = some ev) := by
    intro ev h
    obtain ⟨c, hc⟩ := quit_event_eq_some h
    obtain ⟨evs, hd⟩ := decodeFrom_total buf n.toNat n.toNat 0 (by omega)
    have hl := keycodeLoop_events cfg.show_keycodes cfg.quit_keycode buf n.toNat n.toNat 0 evs hd
    obtain ⟨hk, hr, hlast⟩ := hl.2.2.2.2.1 ev c hc
    refine ⟨hr, hk, ⟨evs, hd, hl.1.subset (List.mem_of_mem_getLast? (Option.mem_def.2 hlast))⟩, ?_⟩
    refine ⟨keycodeLoop cfg.show_keycodes cfg.quit_keycode buf n.toNat n.toNat 0, ?_, hlast⟩
    by_cases hg : cfg.show_keycodes = true ∨ cfg.quit_keycode ≠ 0
    · simp only [process_buffer, hg, if_true]
    · simp [BufferResult.quit_event, process_buffer, hg] at h
  refine ⟨key, ?_, ?_⟩
  · intro evs hd hp
    cases hq : (process_buffer cfg buf n).quit_event with
    | none => rfl
    | some ev =>
      obtain ⟨hr, _, ⟨evs2, hd2, hm⟩, _⟩ := key ev hq
      rw [hd] at hd2
      simp only [Option.some.injEq] at hd2
      subst hd2
      rw [hp ev hm] at hr
      simp at hr
  · intro s hs
    cases hq : (process_buffer cfg buf n).quit_event <;> simp [step, hs, hq]

/-- A release of the quit keycode 30 ends the session; its press does not. -/
theorem quit_only_on_release_witness :
    (process_buffer ⟨true, 30, 10⟩ [0x9e] 1).quit_event = some ⟨30, true, 1⟩ ∧
    ((⟨30, true, 1⟩ : KeyEvent).is_released = true ∧ (⟨30, true, 1⟩ : KeyEvent).kc = 30) ∧
    decodeFrom [0x1e] 1 1 0 = some [⟨30, false, 1⟩] ∧
    (process_buffer ⟨true, 30, 10⟩ [0x1e] 1).quit_event = none :=
  ⟨by decide,
   ⟨((quit_only_on_release ⟨true, 30, 10⟩ [0x9e] 1).1 ⟨30, true, 1⟩ (by decide)).1,
    ((quit_only_on_release ⟨true, 30, 10⟩ [0x9e] 1).1 ⟨30, true, 1⟩ (by decide)).2.1⟩,
   by decide,
   (quit_only_on_release ⟨true, 30, 10⟩ [0x1e] 1).2.1 [⟨30, false, 1⟩] (by decide) (by decide)⟩

/-- C5, the code at the failing input: with `quit_keycode = 0` in keycode mode
the byte 0x80 (release of keycode 0) satisfies line 288 and the session ends
through `clean_up` with `EXIT_SUCCESS`.  In scancode mode the loop is skipped
when `quit_keycode = 0`, and option `-q` stores 0 for a value it rejects. -/
theorem quit_keycode_zero_still_quits :
    (process_buffer ⟨true, 0, 10⟩ [0x80] 1).quit_event = some ⟨0, true, 1⟩ ∧
    (run defaults (start K_XLATE cooked)
      [.run, .run, .run, .run, .run, .input [0x80] 1, .run, .run, .run, .run]).pc =
        .exited EXIT_SUCCESS ∧
    (∀ t buf n, (process_buffer ⟨false, 0, t⟩ buf n).quit_event = none) ∧
    parse_quit_keycode true (-1) = 0 ∧ parse_quit_keycode true 256 = 0 ∧
    parse_quit_keycode false 84 = 0 ∧ parse_quit_keycode true 0 = 0 := by
  refine ⟨by decide, by decide, ?_, by decide, by decide, by decide, by decide⟩
  intro t buf n
  simp [BufferResult.quit_event, process_buffer]

/-- C6, as the spec states it, fails: the event of `[0x00, 0x85, 0x81]` has
keycode 641. -/
theorem keycode_range_counterexample :
    ∃ evs e, decode [0x00, 0x85, 0x81] = some evs ∧ e ∈ evs ∧ ¬ e.kc ≤ 127 :=
  ⟨[⟨641, false, 3⟩], ⟨641, false, 3⟩, by decide, by simp, by decide⟩

/-- C6, amended: every event the decoder produces has its keycode in
`[0, 16383]`, and every event of the 1-byte legacy form has it in `[0, 127]`;
the same holds for the events the loop processes.  The bound 16383 is
reached. -/
theorem keycode_range (buf : List Nat) (n : Nat) :
    (∀ evs, decodeFrom buf n n 0 = some evs →
      ∀ e ∈ evs, e.kc ≤ 16383 ∧ (e.bytes_consumed = 1 → e.kc ≤ 127)) ∧
    (∀ sk q, ∀ e ∈ (keycodeLoop sk q buf n n 0).events,
      e.kc ≤ 16383 ∧ (e.bytes_consumed = 1 → e.kc ≤ 127)) ∧
    decode [0x00, 0xff, 0xff] = some [⟨16383, false, 3⟩] := by
  refine ⟨?_, ?_, by decide⟩
  · intro evs hd e he
    have := decodeFrom_inRange buf n n 0 evs hd e he
    exact ⟨this.1, this.2.1⟩
  · intro sk q e he
    have := keycodeLoop_inRange sk q buf n e he
    exact ⟨this.1, this.2.1⟩

/-- The bounds at the events of `[0x00, 0x85, 0x81, 0x41]`. -/
theorem keycode_range_witness :
    decodeFrom [0x00, 0x85, 0x81, 0x41] 4 4 0 = some [⟨641, false, 3⟩, ⟨65, false, 1⟩] ∧
    (⟨65, false, 1⟩ : KeyEvent) ∈ [(⟨641, false, 3⟩ : KeyEvent), ⟨65, false, 1⟩] ∧
    ((⟨65, false, 1⟩ : KeyEvent).kc ≤ 16383 ∧
      ((⟨65, false, 1⟩ : KeyEvent).bytes_consumed = 1 → (⟨65, false, 1⟩ : KeyEvent).kc ≤ 127)) :=
  ⟨by decide, by simp,
   (keycode_range [0x00, 0x85, 0x81, 0x41] 4).1 [⟨641, false, 3⟩, ⟨65, false, 1⟩] (by decide)
     ⟨65, false, 1⟩ (by simp)⟩

/-- C10: when the decoding of a buffer does not end through the quit exit, the
loop ends within `n` passes with the cursor at exactly `n`; the cursor values,
followed by `n`, start at 0 and each is the one before plus 1 or plus 3; the
widths of the events are 1 or 3 and sum to `n`; and every index of `buf` read,
like every cursor, is strictly below `n`. -/
theorem exact_consumption (sk : Bool) (q : Nat) (buf : List Nat) (n : Nat)
    (hq : (keycodeLoop sk q buf n n 0).outcome.is_quit = false) :
    (keycodeLoop sk q buf n n 0).outcome = .done n ∧
    (∃ rest, (keycodeLoop sk q buf n n 0).cursors ++ [n] = 0 :: rest ∧
      List.Chain Advance 0 rest) ∧
    (∀ e ∈ (keycodeLoop sk q buf n n 0).events,
      e.bytes_consumed = 1 ∨ e.bytes_consumed = 3) ∧
    ((keycodeLoop sk q buf n n 0).events.map KeyEvent.bytes_consumed).sum = n ∧
    (keycodeLoop sk q buf n n 0).events.length ≤ n ∧
    (∀ j ∈ (keycodeLoop sk q buf n n 0).reads, j < n) ∧
    (∀ c ∈ (keycodeLoop sk q buf n n 0).cursors, c < n) := by
  obtain ⟨evs, hd⟩ := decodeFrom_total buf n n 0 (by omega)
  have hfuel := (keycodeLoop_events sk q buf n n 0 evs hd).2.2.1
  obtain ⟨r1, r2, r3, r4⟩ := keycodeLoop_cursor sk q buf n n 0 (Nat.zero_le _) (by omega)
  have hdone : (keycodeLoop sk q buf n n 0).outcome = .done n := by
    cases ho : (keycodeLoop sk q buf n n 0).outcome with
    | done c => rw [(r4 c ho).1]
    | quit ev c => rw [ho] at hq; simp [Outcome.is_quit] at hq
    | out_of_fuel c => exact absurd ho (hfuel c)
  obtain ⟨_, hsum, hchain⟩ := r4 n hdone
  have hwidth : ∀ e ∈ (keycodeLoop sk q buf n n 0).events,
      e.bytes_consumed = 1 ∨ e.bytes_consumed = 3 :=
    fun e he => (keycodeLoop_inRange sk q buf n e he).2.2
  have hlen : ∀ l : List KeyEvent, (∀ e ∈ l, e.bytes_consumed = 1 ∨ e.bytes_consumed = 3) →
      l.length ≤ (l.map KeyEvent.bytes_consumed).sum := by
    intro l
    induction l with
    | nil => intro _; simp
    | cons x xs ih =>
      intro hl
      have hx := hl x (List.mem_cons_self _ _)
      have := ih (fun e he => hl e (List.mem_cons_of_mem _ he))
      simp only [List.length_cons, List.map_cons, List.sum_cons]
      omega
  refine ⟨hdone, hchain, hwidth, by omega, ?_, r1, fun c hc => (r2 c hc).2⟩
  have := hlen _ hwidth
  omega

/-- A buffer of one extended and one legacy event, consumed exactly. -/
theorem exact_consumption_witness :
    (keycodeLoop true 0 [0x00, 0x85, 0x81, 0x41] 4 4 0).outcome.is_quit = false ∧
    (keycodeLoop true 0 [0x00, 0x85, 0x81, 0x41] 4 4 0).outcome = .done 4 ∧
    (keycodeLoop true 0 [0x00, 0x85, 0x81, 0x41] 4 4 0).cursors = [0, 3] :=
  ⟨by decide,
   (exact_consumption true 0 [0x00, 0x85, 0x81, 0x41] 4 (by decide)).1,
   by decide⟩

/-! ## The session -/

theorem run_append (cfg : Config) (s : Session) (xs ys : List Ev) :
    run cfg s (xs ++ ys) = run cfg (run cfg s xs) ys := by
  simp [run, List.foldl_append]

/-- The snapshot is complete after the first two statements. -/
theorem snapshot_taken (cfg : Config) (kbmode : Nat) (attrs : Termios) :
    SnapshotInv kbmode attrs (run cfg (start kbmode attrs) [.run, .run]) := by
  simp [run, step, exec, start, SnapshotInv, AtPc]

/-- At every control point past the snapshot: a closed descriptor means the
restoration is done, and no more restorations happened than triggers. -/
theorem atPc_weak {kbmode : Nat} {attrs : Termios} {m : Machine} {trig : Nat} {pc : Pc}
    (h : AtPc kbmode attrs m trig pc) :
    (m.fd_open = false → Restored kbmode attrs m) ∧
      m.mode_restores.length ≤ trig ∧ m.attr_restores.length ≤ trig := by
  cases pc with
  | get_mode => exact h.elim
  | tcgetattr_old => exact h.elim
  | tcgetattr_new => exact ⟨fun hf => absurd (h.1.symm.trans hf) (by decide), h.2.1, h.2.2⟩
  | tcsetattr_new => exact ⟨fun hf => absurd (h.1.symm.trans hf) (by decide), h.2.1, h.2.2⟩
  | set_kbmode => exact ⟨fun hf => absurd (h.1.symm.trans hf) (by decide), h.2.1, h.2.2⟩
  | read => exact ⟨fun hf => absurd (h.1.symm.trans hf) (by decide), h.2.1, h.2.2⟩
  | cu_kbmode st => exact ⟨h.1, Nat.le_of_succ_le h.2.1, Nat.le_of_succ_le h.2.2⟩
  | cu_tcsetattr st =>
    exact ⟨fun hf => absurd (h.1.symm.trans hf) (by decide), h.2.2.2.1,
      Nat.le_of_succ_le h.2.2.2.2⟩
  | cu_close st => exact ⟨fun _ => h.1, h.2.1, h.2.2⟩
  | cu_return st => exact ⟨fun _ => h.1, h.2.1, h.2.2⟩
  | exited st => exact ⟨fun _ => h.1, h.2.1, h.2.2⟩

/-- Taking a termination trigger keeps the invariant. -/
theorem trigger_inv {kbmode : Nat} {attrs : Termios} {s : Session} (st : Nat)
    (h : SnapshotInv kbmode attrs s) :
    SnapshotInv kbmode attrs { s with pc := .cu_kbmode st, triggers := s.triggers + 1 } := by
  obtain ⟨h1, h2, h3, h4, h5⟩ := h
  obtain ⟨a, b, c⟩ := atPc_weak h5
  exact ⟨h1, h2, h3, h4, a, by simp only; omega, by simp only; omega⟩

/-- Executing the next statement keeps the invariant. -/
theorem exec_inv (cfg : Config) {kbmode : Nat} {attrs : Termios} {s : Session}
    (h : SnapshotInv kbmode attrs s) : SnapshotInv kbmode attrs (exec cfg s) := by
  obtain ⟨⟨kb, att, fd, okb, old, mr, ar, w⟩, new, pc, trig⟩ := s
  obtain ⟨h1, h2, h3, h4, h5⟩ := h
  simp only at h1 h2 h3 h4 h5
  subst h1 h2
  cases pc <;> cases fd <;>
    simp only [exec, restore_kbmode, restore_attrs, close_fd, kbd_error, kbd_warning, ↓reduceIte,
      Bool.false_eq_true] <;>
    simp only [SnapshotInv, AtPc, Restored] at h5 ⊢
  all_goals (try simp only [true_and, and_true, Bool.false_eq_true, false_and, forall_const,
    false_implies, List.mem_append, List.mem_singleton, List.length_append,
    List.length_singleton, implies_true, and_self] at h5 ⊢)
  all_goals first
    | exact h5.elim
    | exact ⟨h3, h4, h5⟩
    | exact ⟨h3, h4, h5.1, Nat.le_of_succ_le h5.2.1, Nat.le_of_succ_le h5.2.2⟩
    | exact ⟨fun x hx => hx.elim (h3 x) id, h4, Nat.succ_le_succ (Nat.zero_le _), h5.2.1, h5.2.2⟩
    | exact ⟨h3, fun x hx => hx.elim (h4 x) id,
        ⟨h5.1, h5.2.1, Nat.succ_le_succ (Nat.zero_le _)⟩, h5.2.2.1, h5.2.2.2⟩

theorem step_inv (cfg : Config) (kbmode : Nat) (attrs : Termios) (s : Session) (ev : Ev)
    (h : SnapshotInv kbmode attrs s) : SnapshotInv kbmode attrs (step cfg s ev) := by
  cases hpc : s.pc with
  | exited st => simp only [step, hpc]; exact h
  | _ =>
    cases ev with
    | run => simp only [step, hpc]; exact exec_inv cfg h
    | signal x => simp only [step, hpc]; exact trigger_inv _ h
    | alarm => simp only [step, hpc]; exact trigger_inv _ h
    | input buf n =>
      simp only [step, hpc]
      first
      | exact h
      | (split
         · exact trigger_inv _ h
         · exact h)

theorem run_inv (cfg : Config) (kbmode : Nat) (attrs : Termios) (evs : List Ev) :
    ∀ s, SnapshotInv kbmode attrs s → SnapshotInv kbmode attrs (run cfg s evs) := by
  induction evs with
  | nil => intro s h; exact h
  | cons ev evs ih =>
    intro s h
    exact ih (step cfg s ev) (step_inv cfg kbmode attrs s ev h)

/-- Once a handler has started, four statements end the process. -/
theorem trigger_exits (cfg : Config) (s : Session) (st : Nat) :
    ∃ st1, (run cfg { s with pc := .cu_kbmode st, triggers := s.triggers + 1 }
      [.run, .run, .run, .run]).pc = .exited st1 := by
  cases hfd : s.m.fd_open
  · exact ⟨EXIT_FAILURE, by simp [run, step, exec, restore_kbmode, kbd_error, hfd]⟩
  · exact ⟨st, by simp [run, step, exec, restore_kbmode, restore_attrs, close_fd, kbd_error, hfd]⟩

/-- A signal or the alarm, followed by four statements, ends the process from
every state. -/
theorem handler_exits (cfg : Config) (s : Session) (ev : Ev) (hev : ev = .alarm ∨ ∃ x, ev = .signal x) :
    ∃ st, (run cfg s [ev, .run, .run, .run, .run]).pc = .exited st := by
  cases hpc : s.pc with
  | exited st0 => exact ⟨st0, by simp [run, step, hpc]⟩
  | _ =>
    rcases hev with rfl | ⟨x, rfl⟩
    · have := trigger_exits cfg s EXIT_SUCCESS
      simpa [run, step, hpc] using this
    · have := trigger_exits cfg s EXIT_FAILURE
      simpa [run, step, hpc] using this

theorem eq_singleton_of_forall {α : Type} {l : List α} {a : α} (hl : l.length = 1)
    (h : ∀ x ∈ l, x = a) : l = [a] := by
  match l, hl with
  | [x], _ => rw [h x (List.mem_singleton.2 rfl)]

/-! ## The session claims -/

/-- C7, as the spec states it, fails.  A signal delivered after the handlers
are installed and before `get_mode` makes `clean_up` write the zero-initialised
statics: the console is left in mode `K_RAW` where `K_XLATE` was in force.
Between `get_mode` and `tcgetattr` the attributes written are the zeroed
ones.  And a second trigger that arrives while `clean_up` runs makes the
restoration happen twice. -/
theorem restoration_counterexample :
    ((run defaults (start K_XLATE cooked)
        [.signal 2, .run, .run, .run, .run]).pc = .exited EXIT_FAILURE ∧
      (run defaults (start K_XLATE cooked)
        [.signal 2, .run, .run, .run, .run]).m.mode_restores = [K_RAW] ∧
      (run defaults (start K_XLATE cooked)
        [.signal 2, .run, .run, .run, .run]).m.kbmode = K_RAW ∧
      K_RAW ≠ K_XLATE) ∧
    ((run defaults (start K_XLATE cooked)
        [.run, .alarm, .run, .run, .run, .run]).pc = .exited EXIT_SUCCESS ∧
      (run defaults (start K_XLATE cooked)
        [.run, .alarm, .run, .run, .run, .run]).m.attr_restores = [Termios.zero] ∧
      (run defaults (start K_XLATE cooked)
        [.run, .alarm, .run, .run, .run, .run]).m.attrs ≠ cooked) ∧
    ((run defaults (start K_XLATE cooked)
        [.run, .run, .run, .run, .run, .signal 2, .run, .alarm, .run, .run, .run, .run]).pc =
          .exited EXIT_SUCCESS ∧
      (run defaults (start K_XLATE cooked)
        [.run, .run, .run, .run, .run, .signal 2, .run, .alarm, .run, .run, .run, .run]
        ).m.mode_restores = [K_XLATE, K_XLATE]) := by
  refine ⟨⟨?_, ?_, ?_, ?_⟩, ⟨?_, ?_, ?_⟩, ⟨?_, ?_⟩⟩ <;> decide

/-- C7, amended: once the snapshot of lines 239-240 is taken (the first two
statements after the handlers are installed), for every sequence of events
(statements, returns of `read`, signals, alarms, in any interleaving): every
value `clean_up` writes is the keyboard mode, respectively the terminal
attributes, in force at session start; the number of restorations of each
never exceeds the number of termination triggers taken; when the process has
exited each was restored at least once and the console has the mode and
attributes of the session start; so with a single trigger there is exactly one
restoration of each.  A signal or the alarm, followed by four statements of
the handler, does end the process. -/
theorem restoration_after_snapshot (cfg : Config) (kbmode : Nat) (attrs : Termios)
    (evs : List Ev) :
    (∀ x ∈ (run cfg (start kbmode attrs) (.run :: .run :: evs)).m.mode_restores, x = kbmode) ∧
    (∀ x ∈ (run cfg (start kbmode attrs) (.run :: .run :: evs)).m.attr_restores, x = attrs) ∧
    (run cfg (start kbmode attrs) (.run :: .run :: evs)).m.mode_restores.length ≤
      (run cfg (start kbmode attrs) (.run :: .run :: evs)).triggers ∧
    (run cfg (start kbmode attrs) (.run :: .run :: evs)).m.attr_restores.length ≤
      (run cfg (start kbmode attrs) (.run :: .run :: evs)).triggers ∧
    (∀ st, (run cfg (start kbmode attrs) (.run :: .run :: evs)).pc = .exited st →
      1 ≤ (run cfg (start kbmode attrs) (.run :: .run :: evs)).m.mode_restores.length ∧
      1 ≤ (run cfg (start kbmode attrs) (.run :: .run :: evs)).m.attr_restores.length ∧
      (run cfg (start kbmode attrs) (.run :: .run :: evs)).m.kbmode = kbmode ∧
      (run cfg (start kbmode attrs) (.run :: .run :: evs)).m.attrs = attrs) ∧
    (∀ st, (run cfg (start kbmode attrs) (.run :: .run :: evs)).pc = .exited st →
      (run cfg (start kbmode attrs) (.run :: .run :: evs)).triggers = 1 →
      (run cfg (start kbmode attrs) (.run :: .run :: evs)).m.mode_restores = [kbmode] ∧
      (run cfg (start kbmode attrs) (.run :: .run :: evs)).m.attr_restores = [attrs]) ∧
    (∀ ev, ev = .alarm ∨ (∃ x, ev = .signal x) →
      ∃ st, (run cfg (start kbmode attrs)
        ((.run :: .run :: evs) ++ [ev, .run, .run, .run, .run])).pc = .exited st) := by
  have hinv : SnapshotInv kbmode attrs (run cfg (start kbmode attrs) (.run :: .run :: evs)) := by
    have := run_inv cfg kbmode attrs evs _ (snapshot_taken cfg kbmode attrs)
    rw [← run_append] at this
    exact this
  obtain ⟨_, _, h3, h4, h5⟩ := hinv
  obtain ⟨_, b, c⟩ := atPc_weak h5
  have hexit : ∀ st, (run cfg (start kbmode attrs) (.run :: .run :: evs)).pc = .exited st →
      Restored kbmode attrs (run cfg (start kbmode attrs) (.run :: .run :: evs)).m := by
    intro st hst
    rw [hst] at h5
    exact h5.1
  refine ⟨h3, h4, b, c, ?_, ?_, ?_⟩
  · intro st hst
    obtain ⟨r1, r2, r3, r4⟩ := hexit st hst
    exact ⟨r3, r4, r1, r2⟩
  · intro st hst ht
    obtain ⟨_, _, r3, r4⟩ := hexit st hst
    exact ⟨eq_singleton_of_forall (by omega) h3, eq_singleton_of_forall (by omega) h4⟩
  · intro ev hev
    rw [run_append]
    exact handler_exits cfg _ ev hev

/-- A session interrupted by SIGINT while blocked in `read`: one trigger, one
restoration of the mode and attributes of the session start. -/
theorem restoration_after_snapshot_witness :
    (run defaults (start K_XLATE cooked)
      [.run, .run, .run, .run, .run, .signal 2, .run, .run, .run, .run]).pc =
        .exited EXIT_FAILURE ∧
    (run defaults (start K_XLATE cooked)
      [.run, .run, .run, .run, .run, .signal 2, .run, .run, .run, .run]).triggers = 1 ∧
    ((run defaults (start K_XLATE cooked)
      [.run, .run, .run, .run, .run, .signal 2, .run, .run, .run, .run]).m.mode_restores =
        [K_XLATE] ∧
     (run defaults (start K_XLATE cooked)
      [.run, .run, .run, .run, .run, .signal 2, .run, .run, .run, .run]).m.attr_restores =
        [cooked]) :=
  ⟨by decide, by decide,
   (restoration_after_snapshot defaults K_XLATE cooked
      [.run, .run, .run, .signal 2, .run, .run, .run, .run]).2.2.2.2.2.1
      EXIT_FAILURE (by decide) (by decide)⟩

/-- C8, as the spec states it, fails: on an open descriptor the first
`clean_up` returns and the second one ends in the fatal error. -/
theorem clean_up_twice_counterexample :
    (clean_up in_session).is_fatal = false ∧ (clean_up_twice in_session).is_fatal = true := by
  decide

/-- C8, amended: invoking `clean_up` twice in sequence leaves the same kernel
mode and terminal attributes (the same machine, in fact) as invoking it once;
the second invocation writes nothing, because whenever the first returns it
has closed the descriptor, so the `KDSKBMODE` ioctl of the second fails and it
ends in the fatal error with `EXIT_FAILURE`. -/
theorem clean_up_twice_state (m : Machine) :
    (clean_up_twice m).machine.kbmode = (clean_up m).machine.kbmode ∧
    (clean_up_twice m).machine.attrs = (clean_up m).machine.attrs ∧
    (clean_up_twice m).machine = (clean_up m).machine ∧
    (∀ m1, clean_up m = .returned m1 →
      m1.fd_open = false ∧ clean_up m1 = .fatal EXIT_FAILURE m1 ∧
        clean_up_twice m = .fatal EXIT_FAILURE m1) ∧
    ((clean_up m).is_fatal = true ↔ m.fd_open = false) ∧
    (clean_up_twice m).is_fatal = true := by
  cases hfd : m.fd_open <;>
    simp [clean_up_twice, clean_up, restore_kbmode, restore_attrs, close_fd, kbd_error,
      Call.machine, Call.is_fatal, hfd]

/-- The second `clean_up` of a session in medium-raw mode. -/
theorem clean_up_twice_state_witness :
    clean_up in_session = .returned after_clean_up ∧
    clean_up after_clean_up = .fatal EXIT_FAILURE after_clean_up :=
  ⟨by decide, ((clean_up_twice_state in_session).2.2.2.1 after_clean_up (by decide)).2.1⟩

/-- C9, the code at the failing input: when the blocked `read` returns 0 (or
-1) the loop body does nothing and the session is at line 263 again, with the
alarm re-armed, about to read; nothing is restored and the process does not
exit, however often this happens. -/
theorem read_zero_rereads (cfg : Config) (s : Session) (buf : List Nat) (h : s.pc = .read) :
    step cfg s (.input buf 0) = s ∧
    step cfg s (.input buf (-1)) = s ∧
    (∀ k, run cfg s (List.replicate k (.input buf 0)) = s) ∧
    (process_buffer cfg buf 0).quit_event = none := by
  have hq : ∀ n : Int, n.toNat = 0 → (process_buffer cfg buf n).quit_event = none := by
    intro n hn
    unfold BufferResult.quit_event process_buffer
    rw [hn]
    by_cases hg : cfg.show_keycodes = true ∨ cfg.quit_keycode ≠ 0
    · simp only [hg, if_true]
      rfl
    · simp only [hg, if_false]
  have h0 : step cfg s (.input buf 0) = s := by
    simp only [step, h, hq 0 rfl]
  refine ⟨h0, ?_, ?_, hq 0 rfl⟩
  · simp only [step, h, hq (-1) (by decide)]
  · intro k
    induction k with
    | zero => rfl
    | succ k ih =>
      rw [List.replicate_succ]
      show run cfg (step cfg s (.input buf 0)) (List.replicate k (.input buf 0)) = s
      rw [h0, ih]

/-- The armed session, blocked in `read`, gets an empty read. -/
theorem read_zero_rereads_witness :
    (run defaults (start K_XLATE cooked)
      [.run, .run, .run, .run, .run]).pc = .read ∧
    step defaults (run defaults (start K_XLATE cooked)
      [.run, .run, .run, .run, .run]) (.input [] 0) =
      run defaults (start K_XLATE cooked) [.run, .run, .run, .run, .run] :=
  ⟨by decide,
   (read_zero_rereads defaults _ [] (by decide)).1⟩

end Showkey
